import Mathlib

/-
Verification of the walk-forward portfolio optimizer backend
(files backend/walkforward_engine.py, backend/walkforward_engine_predictive.py,
backend/predictive_models.py, backend/portfolio_optimizer.py).

The development is a shallow embedding: dates are integers (trading-day
indices ordered like pandas Timestamps), tickers are natural-number
identifiers, prices and weights are rationals, Python dicts are association
lists looked up with a default of 0 (dict.get(t, 0.0)), and fallible
operations return Option.  External library calls (sklearn model fitting,
the pypfopt convex solver, covariance estimation) enter as function
parameters whose contracts appear as hypotheses; everything the repository
itself computes is translated line by line from the Python source.
-/

/-- Tickers are modelled as natural-number identifiers (the Python code keys
dicts and DataFrame columns by ticker strings; only equality of tickers is
ever used). -/
abbrev Ticker := Nat

/-- One row of the long-format price panel: stock_data is a DataFrame indexed
by (date, ticker) whose relevant value column is adj close. -/
structure Obs where
  date : Int
  ticker : Ticker
  price : Rat
  deriving DecidableEq, Repr

/-- WalkForwardEngine.get_lookback_data (walkforward_engine.py lines 96-113):
keeps exactly the panel rows with lookback_start <= date < rebalance_date.
The Python code derives lookbackStart as rebalance_date minus
relativedelta(months=lookback_months); the causality property holds for every
value of that start date, so it is passed in as a parameter. -/
def getLookbackData (panel : List Obs) (lookbackStart rebalanceDate : Int) :
    List Obs :=
  panel.filter (fun o =>
    decide (lookbackStart ≤ o.date) && decide (o.date < rebalanceDate))

/-- PredictiveWalkForwardEngine._get_lookback_data
(walkforward_engine_predictive.py lines 203-225): the same mask with the two
conjuncts written in the opposite order (date < rebalance_date first).  This
function produces both the alpha window and the risk window handed to feature
calculation, model training, covariance estimation and the optimizer. -/
def getLookbackDataPredictive (panel : List Obs)
    (lookbackStart rebalanceDate : Int) : List Obs :=
  panel.filter (fun o =>
    decide (o.date < rebalanceDate) && decide (lookbackStart ≤ o.date))

/-- Claim C1: for every rebalance date, every observation in a lookback
window handed to feature/label construction and optimization (both the base
engine window and the predictive alpha/risk windows) is dated strictly
before the rebalance date; no observation dated on or after the rebalance
date is included. -/
theorem lookback_windows_causal :
    (∀ (panel : List Obs) (s d : Int) (o : Obs),
      o ∈ getLookbackData panel s d → o.date < d) ∧
    (∀ (panel : List Obs) (s d : Int) (o : Obs),
      o ∈ getLookbackDataPredictive panel s d → o.date < d) := by
  constructor
  · intro panel s d o ho
    have h := List.of_mem_filter ho
    simp only [Bool.and_eq_true, decide_eq_true_eq] at h
    exact h.2
  · intro panel s d o ho
    have h := List.of_mem_filter ho
    simp only [Bool.and_eq_true, decide_eq_true_eq] at h
    exact h.1

/-- Witness for C1: a concrete panel row selected by both window functions is
dated strictly before the rebalance date. -/
theorem lookback_windows_causal_witness :
    (Obs.mk 3 0 10 : Obs).date < 5 ∧ (Obs.mk 4 1 7 : Obs).date < 5 :=
  ⟨lookback_windows_causal.1 [Obs.mk 3 0 10, Obs.mk 7 0 11] 0 5 _ (by decide),
   lookback_windows_causal.2 [Obs.mk 4 1 7, Obs.mk 5 1 8] 0 5 _ (by decide)⟩

/-- Python dict access weights.get(ticker, 0.0): the weight dicts are
association lists and a missing ticker reads as weight 0. -/
def wGet (w : List (Ticker × Rat)) (t : Ticker) : Rat :=
  (w.lookup t).getD 0

/-- Key set of a weight dict (set(list(old.keys()) + list(new.keys())) is the
union of the two key sets). -/
def wKeys (w : List (Ticker × Rat)) : Finset Ticker :=
  (w.map Prod.fst).toFinset

/-- WalkForwardEngine.calculate_transaction_costs, turnover part
(walkforward_engine.py lines 172-193): sum of absolute weight deltas over
the union of the key sets of the old and new weight dicts. -/
def turnover (oldW newW : List (Ticker × Rat)) : Rat :=
  ∑ t ∈ wKeys oldW ∪ wKeys newW, |wGet newW t - wGet oldW t|

/-- WalkForwardEngine.calculate_transaction_costs (walkforward_engine.py
lines 172-193): returns (cost, turnover) with
cost = turnover * portfolio_value * cost_bps / 10000. -/
def calculateTransactionCosts (oldW newW : List (Ticker × Rat))
    (portfolioValue costBps : Rat) : Rat × Rat :=
  (turnover oldW newW * portfolioValue * costBps / 10000, turnover oldW newW)

theorem wGet_eq_zero_of_not_mem (w : List (Ticker × Rat)) (t : Ticker)
    (h : t ∉ wKeys w) : wGet w t = 0 := by
  induction w with
  | nil => rfl
  | cons p rest ih =>
    simp only [wKeys, List.map_cons, List.toFinset_cons, Finset.mem_insert,
      not_or] at h
    have hne : (t == p.1) = false := by
      simp only [beq_eq_false_iff_ne, ne_eq]
      exact h.1
    simp only [wGet, List.lookup, hne]
    exact ih (by simpa [wKeys] using h.2)

theorem lookup_mem_of_eq_some (w : List (Ticker × Rat)) (t : Ticker) (v : Rat)
    (h : w.lookup t = some v) : (t, v) ∈ w := by
  induction w with
  | nil => simp [List.lookup] at h
  | cons p rest ih =>
    by_cases he : t = p.1
    · subst he
      have hv : p.2 = v := by
        simpa [List.lookup] using h
      subst hv
      exact List.mem_cons_self _ _
    · have hne : (t == p.1) = false := by
        simp only [beq_eq_false_iff_ne, ne_eq]
        exact he
      simp only [List.lookup, hne] at h
      exact List.mem_cons_of_mem _ (ih h)

theorem wGet_nonneg_of_entries (w : List (Ticker × Rat))
    (h : ∀ p ∈ w, 0 ≤ p.2) (t : Ticker) : 0 ≤ wGet w t := by
  unfold wGet
  cases hl : w.lookup t with
  | none => simp
  | some v =>
    simpa using h (t, v) (lookup_mem_of_eq_some w t v hl)

theorem sum_wKeys_eq (w : List (Ticker × Rat))
    (hnd : (w.map Prod.fst).Nodup) :
    ∑ t ∈ wKeys w, wGet w t = (w.map Prod.snd).sum := by
  induction w with
  | nil => simp [wKeys]
  | cons p rest ih =>
    simp only [List.map_cons, List.nodup_cons] at hnd
    have hnotmem : p.1 ∉ wKeys rest := by
      simp only [wKeys, List.mem_toFinset]
      exact hnd.1
    have hkeys : wKeys (p :: rest) = insert p.1 (wKeys rest) := by
      simp [wKeys]
    rw [hkeys, Finset.sum_insert hnotmem]
    have hhead : wGet (p :: rest) p.1 = p.2 := by
      simp [wGet, List.lookup]
    have htail : ∀ t ∈ wKeys rest, wGet (p :: rest) t = wGet rest t := by
      intro t ht
      have hne : (t == p.1) = false := by
        simp only [beq_eq_false_iff_ne, ne_eq]
        intro he
        exact hnotmem (he ▸ ht)
      simp [wGet, List.lookup, hne]
    rw [hhead, Finset.sum_congr rfl htail, ih hnd.2]
    simp

theorem sum_wGet_union_le (a b : List (Ticker × Rat))
    (hnd : (a.map Prod.fst).Nodup) (hsum : (a.map Prod.snd).sum ≤ 1) :
    ∑ t ∈ wKeys a ∪ wKeys b, wGet a t ≤ 1 := by
  have hsub : wKeys a ⊆ wKeys a ∪ wKeys b := Finset.subset_union_left
  have heq : ∑ t ∈ wKeys a ∪ wKeys b, wGet a t = ∑ t ∈ wKeys a, wGet a t := by
    symm
    exact Finset.sum_subset hsub
      (fun t _ ht => wGet_eq_zero_of_not_mem a t ht)
  rw [heq, sum_wKeys_eq a hnd]
  exact hsum

/-- Claim C8: turnover is symmetric in its two arguments; for weight dicts
(association lists with distinct keys, as Python dicts are) with nonnegative
entries each summing to at most 1, turnover lies in [0, 2]; and
calculate_transaction_costs returns exactly
(turnover * portfolio_value * cost_bps / 10000, turnover). -/
theorem transaction_costs_symmetric_bounded :
    (∀ oldW newW : List (Ticker × Rat), turnover oldW newW = turnover newW oldW) ∧
    (∀ (oldW newW : List (Ticker × Rat)) (pv bps : Rat),
      (oldW.map Prod.fst).Nodup →
      (newW.map Prod.fst).Nodup →
      (∀ p ∈ oldW, 0 ≤ p.2) →
      (∀ p ∈ newW, 0 ≤ p.2) →
      ((oldW.map Prod.snd).sum ≤ 1) →
      ((newW.map Prod.snd).sum ≤ 1) →
      0 ≤ turnover oldW newW ∧ turnover oldW newW ≤ 2 ∧
      calculateTransactionCosts oldW newW pv bps =
        (turnover oldW newW * pv * bps / 10000, turnover oldW newW)) := by
  constructor
  · intro oldW newW
    unfold turnover
    rw [Finset.union_comm]
    exact Finset.sum_congr rfl (fun t _ => abs_sub_comm _ _)
  · intro oldW newW pv bps hndOld hndNew hOld hNew hOldSum hNewSum
    refine ⟨Finset.sum_nonneg (fun t _ => abs_nonneg _), ?_, rfl⟩
    have hterm : ∀ t ∈ wKeys oldW ∪ wKeys newW,
        |wGet newW t - wGet oldW t| ≤ wGet newW t + wGet oldW t := by
      intro t _
      have h1 := wGet_nonneg_of_entries oldW hOld t
      have h2 := wGet_nonneg_of_entries newW hNew t
      rw [abs_sub_le_iff]
      constructor <;> linarith
    calc turnover oldW newW
        ≤ ∑ t ∈ wKeys oldW ∪ wKeys newW, (wGet newW t + wGet oldW t) :=
          Finset.sum_le_sum hterm
      _ = (∑ t ∈ wKeys oldW ∪ wKeys newW, wGet newW t) +
          (∑ t ∈ wKeys oldW ∪ wKeys newW, wGet oldW t) := Finset.sum_add_distrib
      _ ≤ 1 + 1 := by
          have ha : ∑ t ∈ wKeys oldW ∪ wKeys newW, wGet oldW t ≤ 1 :=
            sum_wGet_union_le oldW newW hndOld hOldSum
          have hb : ∑ t ∈ wKeys oldW ∪ wKeys newW, wGet newW t ≤ 1 := by
            have := sum_wGet_union_le newW oldW hndNew hNewSum
            rwa [Finset.union_comm] at this
          linarith
      _ = 2 := by norm_num

/-- Witness for C8 at concrete weight dicts: old = {0 ↦ 1/2, 1 ↦ 1/2},
new = {1 ↦ 1}, portfolio value 100000, 15 bps. -/
theorem transaction_costs_symmetric_bounded_witness :
    0 ≤ turnover [(0, (1:Rat)/2), (1, 1/2)] [(1, 1)] ∧
    turnover [(0, (1:Rat)/2), (1, 1/2)] [(1, 1)] ≤ 2 ∧
    calculateTransactionCosts [(0, (1:Rat)/2), (1, 1/2)] [(1, 1)] 100000 15 =
      (turnover [(0, (1:Rat)/2), (1, 1/2)] [(1, 1)] * 100000 * 15 / 10000,
       turnover [(0, (1:Rat)/2), (1, 1/2)] [(1, 1)]) :=
  transaction_costs_symmetric_bounded.2 [(0, 1/2), (1, 1/2)] [(1, 1)] 100000 15
    (by decide) (by decide) (by norm_num) (by norm_num) (by norm_num)
    (by norm_num)

/-- Result dict of an optimization step (optimize_at_date): weights plus the
decision-time statistics recorded at the rebalance. -/
structure OptResult where
  weights : List (Ticker × Rat)
  expectedReturn : Rat
  volatility : Rat
  sharpe : Rat
  deriving DecidableEq, Repr

/-- One entry of rebalance_records (walkforward_engine.py lines 317-327). -/
structure RebalanceRecord where
  date : Int
  weights : List (Ticker × Rat)
  nStocks : Nat
  turnover : Rat
  transactionCost : Rat
  portfolioValue : Rat
  expectedReturn : Rat
  volatility : Rat
  sharpe : Rat
  deriving DecidableEq, Repr

/-- The mutable loop state of WalkForwardEngine.run: current_capital,
current_weights, total_transaction_costs, equity_curve, rebalance_records. -/
structure RunState where
  capital : Rat
  weights : List (Ticker × Rat)
  totalTxnCosts : Rat
  equityCurve : List (Int × Rat)
  records : List RebalanceRecord
  deriving DecidableEq, Repr

/-- period_values = (1 + period_returns).cumprod() * current_capital
(walkforward_engine.py line 307): running compounded portfolio value over the
holding-period daily returns. -/
def periodValues : Rat → List (Int × Rat) → List (Int × Rat)
  | _, [] => []
  | cap, (d, r) :: rest => (d, cap * (1 + r)) :: periodValues (cap * (1 + r)) rest

/-- The body of the rebalance loop in WalkForwardEngine.run
(walkforward_engine.py lines 269-330) for one rebalance date d with holding
period ending at nextD.  optimize models optimize_at_date (None = failure);
periodReturns models calculate_period_returns (the daily portfolio returns of
the new weights over the holding period).  On failure the loop body is
`continue`: the state is returned unchanged and no record is appended.  On
success: transaction costs are deducted from capital, the compounded period
values extend the equity curve, capital becomes the last period value (or
stays at the post-cost value when the period is empty), a record is appended,
and the new weights become current. -/
def processRebalance (costBps : Rat)
    (optimize : Int → Option OptResult)
    (periodReturns : List (Ticker × Rat) → Int → Int → List (Int × Rat))
    (s : RunState) (d nextD : Int) : RunState :=
  match optimize d with
  | none => s
  | some res =>
    let ct := calculateTransactionCosts s.weights res.weights s.capital costBps
    let cap1 := s.capital - ct.1
    let pvals := periodValues cap1 (periodReturns res.weights d nextD)
    let cap2 := ((pvals.getLast?).map Prod.snd).getD cap1
    let record : RebalanceRecord :=
      ⟨d, res.weights, res.weights.length, ct.2, ct.1, cap2,
        res.expectedReturn, res.volatility, res.sharpe⟩
    { capital := cap2
      weights := res.weights
      totalTxnCosts := s.totalTxnCosts + ct.1
      equityCurve := s.equityCurve ++ pvals
      records := s.records ++ [record] }

/-- Pairs each rebalance date with the next rebalance date, the last one with
the panel end date (walkforward_engine.py lines 292-296). -/
def scheduleWithNext (endDate : Int) : List Int → List (Int × Int)
  | [] => []
  | [d] => [(d, endDate)]
  | d :: d2 :: rest => (d, d2) :: scheduleWithNext endDate (d2 :: rest)

/-- The full rebalance loop of WalkForwardEngine.run over the schedule. -/
def runLoop (costBps : Rat)
    (optimize : Int → Option OptResult)
    (periodReturns : List (Ticker × Rat) → Int → Int → List (Int × Rat))
    (endDate : Int) (dates : List Int) (s0 : RunState) : RunState :=
  (scheduleWithNext endDate dates).foldl
    (fun s p => processRebalance costBps optimize periodReturns s p.1 p.2) s0

/-- WalkForwardEngine.optimize_at_date (walkforward_engine.py lines 115-170):
returns None when the lookback window is empty; otherwise runs the
feature/clustering/optimization pipeline on the lookback data (the external
calls may raise, caught at line 168 and turned into None, so the pipeline is
a parameter returning Option).  monthsSub models
rebalance_date - relativedelta(months=lookback_months). -/
def optimizeAtDateBase (panel : List Obs) (monthsSub : Int → Nat → Int)
    (lookbackMonths : Nat) (pipeline : List Obs → Option OptResult)
    (d : Int) : Option OptResult :=
  let lb := getLookbackData panel (monthsSub d lookbackMonths) d
  if lb.isEmpty then none else pipeline lb

/-- Claim C3: a failed optimization leaves the entire loop state unchanged
(capital, held weights, equity curve, records, cost total), and a stretch of
consecutive failed rebalances leaves the state exactly as it was before the
stretch, so the previous weights stay in effect until the next success. -/
theorem failed_rebalance_holds_state :
    (∀ (costBps : Rat) (optimize : Int → Option OptResult)
      (periodReturns : List (Ticker × Rat) → Int → Int → List (Int × Rat))
      (s : RunState) (d nextD : Int),
      optimize d = none →
      processRebalance costBps optimize periodReturns s d nextD = s) ∧
    (∀ (costBps : Rat) (optimize : Int → Option OptResult)
      (periodReturns : List (Ticker × Rat) → Int → Int → List (Int × Rat))
      (endDate : Int) (dates : List Int) (s : RunState),
      (∀ d ∈ dates, optimize d = none) →
      runLoop costBps optimize periodReturns endDate dates s = s) := by
  have hstep : ∀ (costBps : Rat) (optimize : Int → Option OptResult)
      (periodReturns : List (Ticker × Rat) → Int → Int → List (Int × Rat))
      (s : RunState) (d nextD : Int),
      optimize d = none →
      processRebalance costBps optimize periodReturns s d nextD = s := by
    intro costBps optimize periodReturns s d nextD h
    unfold processRebalance
    rw [h]
  refine ⟨hstep, ?_⟩
  intro costBps optimize periodReturns endDate dates
  induction dates with
  | nil => intro s _; rfl
  | cons d rest ih =>
    intro s h
    have hd : optimize d = none := h d (List.mem_cons_self _ _)
    have hrest : ∀ x ∈ rest, optimize x = none :=
      fun x hx => h x (List.mem_cons_of_mem _ hx)
    cases rest with
    | nil =>
      simp only [runLoop, scheduleWithNext, List.foldl_cons, List.foldl_nil]
      exact hstep costBps optimize periodReturns s d endDate hd
    | cons d2 r2 =>
      simp only [runLoop, scheduleWithNext, List.foldl_cons]
      rw [hstep costBps optimize periodReturns s d d2 hd]
      exact ih s hrest

/-- Witness for C3 at a concrete state and schedule with a failing
optimizer. -/
theorem failed_rebalance_holds_state_witness :
    processRebalance 15 (fun _ => none) (fun _ _ _ => [])
        (RunState.mk 100000 [(0, 1)] 0 [] []) 10 20 =
      RunState.mk 100000 [(0, 1)] 0 [] [] ∧
    runLoop 15 (fun _ => none) (fun _ _ _ => []) 30 [10, 20]
        (RunState.mk 100000 [(0, 1)] 0 [] []) =
      RunState.mk 100000 [(0, 1)] 0 [] [] :=
  ⟨failed_rebalance_holds_state.1 15 (fun _ => none) (fun _ _ _ => [])
      (RunState.mk 100000 [(0, 1)] 0 [] []) 10 20 rfl,
   failed_rebalance_holds_state.2 15 (fun _ => none) (fun _ _ _ => []) 30
      [10, 20] (RunState.mk 100000 [(0, 1)] 0 [] []) (by decide)⟩

theorem foldl_records_dates (costBps : Rat)
    (optimize : Int → Option OptResult)
    (periodReturns : List (Ticker × Rat) → Int → Int → List (Int × Rat)) :
    ∀ (pairs : List (Int × Int)) (s : RunState),
      ((pairs.foldl
          (fun s p => processRebalance costBps optimize periodReturns s p.1 p.2)
          s).records.map (fun r => r.date)) =
        s.records.map (fun r => r.date) ++
          ((pairs.filter (fun p => (optimize p.1).isSome)).map Prod.fst) := by
  intro pairs
  induction pairs with
  | nil => intro s; simp
  | cons p ps ih =>
    intro s
    rw [List.foldl_cons]
    cases hopt : optimize p.1 with
    | none =>
      have hskip : processRebalance costBps optimize periodReturns s p.1 p.2 = s := by
        unfold processRebalance
        rw [hopt]
      rw [hskip, ih s]
      have : (optimize p.1).isSome = false := by rw [hopt]; rfl
      simp [List.filter_cons, this]
    | some res =>
      have hsome : (optimize p.1).isSome = true := by rw [hopt]; rfl
      have hrec : (processRebalance costBps optimize periodReturns s p.1
          p.2).records.map (fun r => r.date) =
          s.records.map (fun r => r.date) ++ [p.1] := by
        unfold processRebalance
        rw [hopt]
        simp
      rw [ih, hrec, List.filter_cons, hsome]
      simp

/-- Claim C4 (amended): a failed rebalance leaves NO trace in the rebalance
history — nothing is appended on the skip path — so the dates of the records
produced by the run loop are exactly the schedule dates at which optimization
succeeded; schedule dates whose optimization failed have no record (neither a
success record nor a skipped-period record). -/
theorem rebalance_records_match_successes :
    ∀ (costBps : Rat) (optimize : Int → Option OptResult)
      (periodReturns : List (Ticker × Rat) → Int → Int → List (Int × Rat))
      (endDate : Int) (dates : List Int) (s0 : RunState),
      ((runLoop costBps optimize periodReturns endDate dates s0).records.map
          (fun r => r.date)) =
        s0.records.map (fun r => r.date) ++
          (((scheduleWithNext endDate dates).filter
              (fun p => (optimize p.1).isSome)).map Prod.fst) := by
  intro costBps optimize periodReturns endDate dates s0
  exact foldl_records_dates costBps optimize periodReturns
    (scheduleWithNext endDate dates) s0

/-- Counterexample for C4 as stated: with an empty price panel every lookback
window is empty, optimize_at_date returns None at the scheduled date 10, and
the run loop produces an empty rebalance history — date 10 is in the
schedule, yet no record (successful or skipped) carries it.  The recoverable
error is only printed, never recorded. -/
theorem skipped_rebalance_has_no_record :
    (10 : Int) ∈ [(10 : Int)] ∧
    optimizeAtDateBase [] (fun d m => d - 30 * m) 24 (fun _ => none) 10 =
      none ∧
    (runLoop 15
        (optimizeAtDateBase [] (fun d m => d - 30 * m) 24 (fun _ => none))
        (fun _ _ _ => []) 20 [10]
        (RunState.mk 100000 [] 0 [] [])).records = [] := by
  refine ⟨by decide, rfl, rfl⟩

/-- pypfopt BaseOptimizer.clean_weights(cutoff), zeroing step: every entry
whose absolute value is below the cutoff is set to 0.  (The library
additionally rounds the surviving entries to 5 decimal places, a
float-formatting step not modelled; it performs NO renormalization.)  Called
with cutoff=0.001 at walkforward_engine_predictive.py line 411. -/
def cleanWeights (cutoff : Rat) (w : List (Ticker × Rat)) : List (Ticker × Rat) :=
  w.map (fun p => if |p.2| < cutoff then (p.1, 0) else p)

/-- The dict comprehension at walkforward_engine_predictive.py line 414:
weights = {k: v for k, v in cleaned_weights.items() if v > 0.001}. -/
def filterNonTiny (cutoff : Rat) (w : List (Ticker × Rat)) : List (Ticker × Rat) :=
  w.filter (fun p => decide (cutoff < p.2))

/-- The weight post-processing of _optimize_with_forecasts (lines 411-414):
clean with cutoff 0.001, then keep only entries above 0.001. -/
def finalWeights (w : List (Ticker × Rat)) : List (Ticker × Rat) :=
  filterNonTiny (1/1000) (cleanWeights (1/1000) w)

theorem finalWeights_eq_filter (w : List (Ticker × Rat)) :
    finalWeights w = w.filter (fun p => decide ((1:Rat)/1000 < p.2)) := by
  induction w with
  | nil => rfl
  | cons p l ih =>
    unfold finalWeights filterNonTiny cleanWeights at ih ⊢
    simp only [List.map_cons]
    by_cases h : |p.2| < (1:Rat)/1000
    · rw [if_pos h]
      have h2 : ¬((1:Rat)/1000 < p.2) := by
        have h3 : p.2 ≤ |p.2| := le_abs_self p.2
        intro hc
        linarith
      rw [List.filter_cons_of_neg (by norm_num),
        List.filter_cons_of_neg (by simpa using h2)]
      exact ih
    · rw [if_neg h]
      by_cases h3 : (1:Rat)/1000 < p.2
      · rw [List.filter_cons_of_pos (by simpa using h3),
          List.filter_cons_of_pos (by simpa using h3)]
        rw [ih]
      · rw [List.filter_cons_of_neg (by simpa using h3),
          List.filter_cons_of_neg (by simpa using h3)]
        exact ih

theorem sum_snd_filter_add (P : Ticker × Rat → Bool) (w : List (Ticker × Rat)) :
    (((w.filter P).map Prod.snd).sum) +
      (((w.filter (fun p => !(P p))).map Prod.snd).sum) =
      (w.map Prod.snd).sum := by
  induction w with
  | nil => simp
  | cons a l ih =>
    cases h : P a with
    | true =>
      rw [List.filter_cons_of_pos (by simp [h]),
        List.filter_cons_of_neg (by simp [h])]
      simp only [List.map_cons, List.sum_cons]
      linarith
    | false =>
      rw [List.filter_cons_of_neg (by simp [h]),
        List.filter_cons_of_pos (by simp [h])]
      simp only [List.map_cons, List.sum_cons]
      linarith

/-- Claim C2 (amended): for every successful rebalance, each entry of the
returned weight dict respects the solver bounds min_weight <= w <= max_weight
and exceeds the 0.001 cutoff; but the cleaning step performs no
renormalization — it only zeroes sub-cutoff entries and drops them — so the
returned entries sum to 1 minus the dropped mass: the sum is at most 1 and at
least 1 - n * 0.001 for an n-asset solver output, not 1 up to floating
tolerance.  Hypotheses are the pypfopt max_sharpe contract: every solved
weight within bounds, weights summing to one, long-only lower bound. -/
theorem final_weights_bounds_and_sum (w : List (Ticker × Rat)) (minW maxW : Rat)
    (hb : ∀ p ∈ w, minW ≤ p.2 ∧ p.2 ≤ maxW)
    (hsum : (w.map Prod.snd).sum = 1)
    (hmin : 0 ≤ minW) :
    (∀ p ∈ finalWeights w, minW ≤ p.2 ∧ p.2 ≤ maxW ∧ (1:Rat)/1000 < p.2) ∧
    ((finalWeights w).map Prod.snd).sum ≤ 1 ∧
    1 - (w.length : Rat) * ((1:Rat)/1000) ≤
      ((finalWeights w).map Prod.snd).sum := by
  have hfw := finalWeights_eq_filter w
  constructor
  · intro p hp
    rw [hfw] at hp
    have hmem := List.mem_filter.1 hp
    have hcond : (1:Rat)/1000 < p.2 := by
      have := hmem.2
      simpa using this
    exact ⟨(hb p hmem.1).1, (hb p hmem.1).2, hcond⟩
  · have hsplit := sum_snd_filter_add
      (fun p => decide ((1:Rat)/1000 < p.2)) w
    set dropped := w.filter
      (fun p => !(decide ((1:Rat)/1000 < p.2))) with hdropped
    have hdropNonneg : 0 ≤ ((dropped.map Prod.snd).sum) := by
      apply List.sum_nonneg
      intro x hx
      obtain ⟨p, hp, rfl⟩ := List.mem_map.1 hx
      have hpw : p ∈ w := List.mem_of_mem_filter hp
      exact le_trans hmin (hb p hpw).1
    have hdropSmall : ((dropped.map Prod.snd).sum) ≤
        (dropped.length : Rat) * ((1:Rat)/1000) := by
      have hbound : ∀ x ∈ dropped.map Prod.snd, x ≤ (1:Rat)/1000 := by
        intro x hx
        obtain ⟨p, hp, rfl⟩ := List.mem_map.1 hx
        have hc := (List.mem_filter.1 hp).2
        have : ¬((1:Rat)/1000 < p.2) := by
          simpa using hc
        linarith
      have := List.sum_le_card_nsmul (dropped.map Prod.snd) ((1:Rat)/1000) hbound
      simpa [nsmul_eq_mul] using this
    have hlen : (dropped.length : Rat) ≤ (w.length : Rat) := by
      exact_mod_cast List.length_filter_le _ w
    have hkept : ((finalWeights w).map Prod.snd).sum =
        1 - ((dropped.map Prod.snd).sum) := by
      rw [hfw]
      rw [hsum] at hsplit
      linarith [hsplit]
    constructor
    · rw [hkept]; linarith
    · rw [hkept]
      have : (dropped.length : Rat) * ((1:Rat)/1000) ≤
          (w.length : Rat) * ((1:Rat)/1000) := by
        apply mul_le_mul_of_nonneg_right hlen
        norm_num
      linarith

/-- Witness for C2 (amended) at a concrete solver output {0 ↦ 1/2, 1 ↦ 1/2}
with bounds [0, 1/2]. -/
theorem final_weights_bounds_and_sum_witness :
    (∀ p ∈ finalWeights [(0, (1:Rat)/2), (1, 1/2)],
      (0:Rat) ≤ p.2 ∧ p.2 ≤ 1/2 ∧ (1:Rat)/1000 < p.2) ∧
    ((finalWeights [(0, (1:Rat)/2), (1, 1/2)]).map Prod.snd).sum ≤ 1 ∧
    1 - (([(0, (1:Rat)/2), (1, 1/2)] : List (Ticker × Rat)).length : Rat) *
        ((1:Rat)/1000) ≤
      ((finalWeights [(0, (1:Rat)/2), (1, 1/2)]).map Prod.snd).sum :=
  final_weights_bounds_and_sum [(0, 1/2), (1, 1/2)] 0 (1/2)
    (by norm_num) (by norm_num) (by norm_num)

/-- A concrete max_sharpe solver output over 57 assets with bounds
[0, 0.15]: six weights at the 15% cap, one at 5.05%, and fifty dust weights
of 0.099% each; all entries within bounds and summing exactly to 1. -/
def solverWeightsCE : List (Ticker × Rat) :=
  (List.range 6).map (fun i => (i, (3:Rat)/20)) ++
    ((6, (101:Rat)/2000) ::
      (List.range 50).map (fun i => (i + 7, (99:Rat)/100000)))

theorem sum_snd_constPairs (n : Nat) (c : Rat) (f : Nat → Ticker) :
    (((List.range n).map (fun i => (f i, c))).map Prod.snd).sum = n * c := by
  induction n with
  | zero => simp
  | succ k ih =>
    rw [List.range_succ]
    simp only [List.map_append, List.sum_append, List.map_cons, List.map_nil,
      List.sum_cons, List.sum_nil, ih]
    push_cast
    ring

theorem filter_constPairs_false (n : Nat) (c : Rat) (f : Nat → Ticker)
    (h : ¬((1:Rat)/1000 < c)) :
    ((List.range n).map (fun i => (f i, c))).filter
      (fun p => decide ((1:Rat)/1000 < p.2)) = [] := by
  induction n with
  | zero => rfl
  | succ k ih =>
    rw [List.range_succ]
    simp only [List.map_append, List.filter_append, ih, List.map_cons,
      List.map_nil]
    rw [List.filter_cons_of_neg (by simpa using h)]
    rfl

theorem filter_constPairs_true (n : Nat) (c : Rat) (f : Nat → Ticker)
    (h : (1:Rat)/1000 < c) :
    ((List.range n).map (fun i => (f i, c))).filter
      (fun p => decide ((1:Rat)/1000 < p.2)) =
      (List.range n).map (fun i => (f i, c)) := by
  induction n with
  | zero => rfl
  | succ k ih =>
    rw [List.range_succ]
    simp only [List.map_append, List.filter_append, ih, List.map_cons,
      List.map_nil]
    rw [List.filter_cons_of_pos (by simpa using h)]
    simp

theorem finalWeights_CE :
    finalWeights solverWeightsCE =
      (List.range 6).map (fun i => ((i : Ticker), (3:Rat)/20)) ++
        [(6, (101:Rat)/2000)] := by
  rw [finalWeights_eq_filter, solverWeightsCE, List.filter_append]
  rw [filter_constPairs_true 6 ((3:Rat)/20) (fun i => i) (by norm_num)]
  rw [List.filter_cons_of_pos (by norm_num)]
  rw [filter_constPairs_false 50 ((99:Rat)/100000) (fun i => i + 7)
    (by norm_num)]

/-- Counterexample for C2 as stated: at this successful rebalance the solver
output satisfies the optimizer contract (bounds [0, 3/20], entries summing
exactly to 1), yet the weight dict returned after cleaning sums to
1901/2000 = 0.9505 — off from 1 by 0.0495, far beyond floating tolerance —
because the cleaning step zeroes and drops the fifty sub-cutoff entries
without renormalizing the remainder. -/
theorem cleaned_weights_not_renormalized :
    (∀ p ∈ solverWeightsCE, (0:Rat) ≤ p.2 ∧ p.2 ≤ 3/20) ∧
    ((solverWeightsCE.map Prod.snd).sum = 1) ∧
    ((finalWeights solverWeightsCE).map Prod.snd).sum = 1901/2000 ∧
    ¬(|((finalWeights solverWeightsCE).map Prod.snd).sum - 1| ≤ 1/1000000) := by
  have hkept : ((finalWeights solverWeightsCE).map Prod.snd).sum =
      1901/2000 := by
    rw [finalWeights_CE]
    simp only [List.map_append, List.sum_append]
    rw [sum_snd_constPairs 6 ((3:Rat)/20) (fun i => i)]
    norm_num
  refine ⟨?_, ?_, hkept, ?_⟩
  · intro p hp
    rw [solverWeightsCE] at hp
    simp only [List.mem_append, List.mem_cons, List.mem_map,
      List.mem_range] at hp
    rcases hp with ⟨i, _, rfl⟩ | (rfl | ⟨i, _, rfl⟩) <;> norm_num
  · rw [solverWeightsCE]
    simp only [List.map_append, List.sum_append, List.map_cons, List.sum_cons]
    rw [sum_snd_constPairs 6 ((3:Rat)/20) (fun i => i),
      sum_snd_constPairs 50 ((99:Rat)/100000) (fun i => i + 7)]
    norm_num
  · rw [hkept]
    rw [show (1901:Rat)/2000 - 1 = -(99/2000) from by norm_num, abs_neg,
      abs_of_pos (by norm_num : (0:Rat) < 99/2000)]
    norm_num

/-- The negative-forecast shift in _optimize_with_forecasts
(walkforward_engine_predictive.py lines 383-387) and
optimize_portfolio_with_forecast (lines 533-535): mu is the series of
forecasts over the eligible tickers; when its minimum is negative the whole
series is shifted by - min + 0.01 before solving.  (A pandas .min() on an
empty series is NaN, whose comparison with 0 is False, so the empty case
leaves mu unchanged — matched by the none branch.) -/
def shiftForecasts (tickers : List Ticker) (mu : Ticker → Rat) : Ticker → Rat :=
  match (tickers.map mu).min? with
  | none => mu
  | some m => if m < 0 then (fun t => mu t - m + 1/100) else mu

theorem foldl_min_add (c : Rat) : ∀ (as : List Rat) (a : Rat),
    (as.map (fun x => x + c)).foldl min (a + c) = as.foldl min a + c := by
  intro as
  induction as with
  | nil => intro a; rfl
  | cons b bs ih =>
    intro a
    simp only [List.map_cons, List.foldl_cons]
    rw [min_add_add_right, ih]

theorem min?_map_add (l : List Rat) (c : Rat) :
    (l.map (fun x => x + c)).min? = l.min?.map (fun x => x + c) := by
  cases l with
  | nil => rfl
  | cons a as =>
    show some ((as.map (fun x => x + c)).foldl min (a + c)) =
      some (as.foldl min a + c)
    rw [foldl_min_add]

/-- Claim C6: when the minimum forecast m over the eligible tickers is
negative, every forecast is shifted upward by the same constant |m| + 0.01;
the shift preserves the strict ranking of every pair of tickers, and the
minimum of the shifted series is exactly 0.01, strictly positive. -/
theorem forecast_shift_ranking_and_positivity
    (tickers : List Ticker) (mu : Ticker → Rat) (m : Rat)
    (hmin : (tickers.map mu).min? = some m) (hneg : m < 0) :
    (∀ t, shiftForecasts tickers mu t = mu t + (|m| + 1/100)) ∧
    (∀ a b, shiftForecasts tickers mu a > shiftForecasts tickers mu b ↔
      mu a > mu b) ∧
    ((tickers.map (shiftForecasts tickers mu)).min? = some ((1:Rat)/100)) ∧
    (∀ x, (tickers.map (shiftForecasts tickers mu)).min? = some x → 0 < x) := by
  have habs : |m| = -m := abs_of_neg hneg
  have hfun : shiftForecasts tickers mu = fun t => mu t - m + 1/100 := by
    unfold shiftForecasts
    rw [hmin]
    simp only [if_pos hneg]
  have hval : (tickers.map (shiftForecasts tickers mu)).min? =
      some ((1:Rat)/100) := by
    have hmap : tickers.map (shiftForecasts tickers mu) =
        (tickers.map mu).map (fun x => x + (-m + 1/100)) := by
      rw [hfun, List.map_map]
      apply List.map_congr_left
      intro t _
      show mu t - m + 1/100 = mu t + (-m + 1/100)
      ring
    rw [hmap, min?_map_add, hmin]
    show some (m + (-m + 1/100)) = some ((1:Rat)/100)
    norm_num
  refine ⟨?_, ?_, hval, ?_⟩
  · intro t
    rw [hfun, habs]
    show mu t - m + 1/100 = mu t + (-m + 1/100)
    ring
  · intro a b
    rw [hfun]
    show mu a - m + 1/100 > mu b - m + 1/100 ↔ mu a > mu b
    constructor <;> intro h <;> linarith
  · intro x hx
    rw [hval] at hx
    cases hx
    norm_num

/-- Concrete forecast series for the C6 witness: ticker 0 forecast -10%,
ticker 1 forecast +5%. -/
def muCE : Ticker → Rat := fun t => if t = 0 then -(1/10) else 1/20

/-- Witness for C6: after shifting the concrete series with minimum -1/10,
the minimum of the shifted series is exactly 1/100. -/
theorem forecast_shift_witness :
    (([0, 1] : List Ticker).map (shiftForecasts [0, 1] muCE)).min? =
      some ((1:Rat)/100) :=
  (forecast_shift_ranking_and_positivity [0, 1] muCE (-(1/10))
    (by
      have h1 : ([0, 1] : List Ticker).map muCE = [-(1/10), 1/20] := by
        simp [muCE]
      rw [h1]
      show some (min (-(1/10)) (1/20)) = some (-(1/10) : Rat)
      rw [min_eq_left (by norm_num)])
    (by norm_num)).2.2.1

/-- One training row produced by prepare_training_data: feature vector,
forward-return target, candidate date, ticker. -/
structure Sample where
  x : List Rat
  y : Rat
  date : Int
  ticker : Ticker
  deriving DecidableEq, Repr

/-- np.clip(x, lo, hi) = min(max(x, lo), hi). -/
def clipRat (lo hi x : Rat) : Rat := min (max x lo) hi

/-- PredictiveAlphaModel._compute_forward_return (predictive_models.py lines
172-200): locate start_date in the price series index (an exception when
absent is caught and yields None), step horizon_months * 21 positions ahead,
return None if that endpoint is outside the series, else the winsorized
price-ratio return clipped to [-0.5, 0.5]. -/
def computeForwardReturn (series : List (Int × Rat)) (horizonMonths : Nat)
    (startDate : Int) : Option Rat :=
  match series.findIdx? (fun p => p.1 == startDate) with
  | none => none
  | some i =>
    if series.length ≤ i + horizonMonths * 21 then none
    else
      match series.get? i, series.get? (i + horizonMonths * 21) with
      | some sp, some ep => some (clipRat (-(1/2)) (1/2) (ep.2 / sp.2 - 1))
      | _, _ => none

/-- PredictiveAlphaModel.prepare_training_data (predictive_models.py lines
105-170): for each candidate rebalance date with a feature row, and each
ticker present in the price columns, append one sample when the forward
return exists; dates without features, tickers without prices, and samples
whose forward return is None contribute nothing.  (The subsequent
median-imputation step X = DataFrame(X).fillna(median) rewrites feature
values only: it neither adds nor removes rows nor touches the targets.) -/
def prepareTrainingData (features : List (Int × List (Ticker × List Rat)))
    (prices : List (Ticker × List (Int × Rat)))
    (rebalanceDates : List Int) (horizonMonths : Nat) : List Sample :=
  rebalanceDates.flatMap (fun d =>
    match features.lookup d with
    | none => []
    | some rows =>
      rows.flatMap (fun tr =>
        match prices.lookup tr.1 with
        | none => []
        | some series =>
          match computeForwardReturn series horizonMonths d with
          | none => []
          | some y => [⟨tr.2, y, d, tr.1⟩]))

theorem clipRat_bounds (x : Rat) :
    -(1/2) ≤ clipRat (-(1/2)) (1/2) x ∧ clipRat (-(1/2)) (1/2) x ≤ 1/2 := by
  unfold clipRat
  constructor
  · exact le_min (le_max_right _ _) (by norm_num)
  · exact min_le_right _ _

theorem computeForwardReturn_mem_Icc (series : List (Int × Rat))
    (horizonMonths : Nat) (d : Int) (y : Rat)
    (h : computeForwardReturn series horizonMonths d = some y) :
    -(1/2) ≤ y ∧ y ≤ 1/2 := by
  unfold computeForwardReturn at h
  cases hidx : series.findIdx? (fun p => p.1 == d) with
  | none => rw [hidx] at h; simp at h
  | some i =>
    rw [hidx] at h
    dsimp only at h
    by_cases hlen : series.length ≤ i + horizonMonths * 21
    · rw [if_pos hlen] at h
      simp at h
    · rw [if_neg hlen] at h
      cases hsp : series.get? i with
      | none => rw [hsp] at h; simp at h
      | some sp =>
        cases hep : series.get? (i + horizonMonths * 21) with
        | none => rw [hsp, hep] at h; simp at h
        | some ep =>
          rw [hsp, hep] at h
          dsimp only at h
          simp only [Option.some.injEq] at h
          rw [← h]
          exact clipRat_bounds _

/-- Claim C5: a candidate (date, ticker) whose horizon endpoint
(horizon_months * 21 positions past the located start index) lies outside
the available price history yields no forward return and contributes no
training row; and every produced training row carries a target obtained from
a successful forward-return computation, which always lies in [-1/2, 1/2]. -/
theorem forward_return_dropped_or_clipped :
    (∀ (series : List (Int × Rat)) (hm : Nat) (d : Int) (i : Nat),
      series.findIdx? (fun p => p.1 == d) = some i →
      series.length ≤ i + hm * 21 →
      computeForwardReturn series hm d = none) ∧
    (∀ (features : List (Int × List (Ticker × List Rat)))
      (prices : List (Ticker × List (Int × Rat)))
      (rebalanceDates : List Int) (hm : Nat),
      ∀ s ∈ prepareTrainingData features prices rebalanceDates hm,
        (∃ series, prices.lookup s.ticker = some series ∧
          computeForwardReturn series hm s.date = some s.y) ∧
        -(1/2) ≤ s.y ∧ s.y ≤ 1/2) := by
  constructor
  · intro series hm d i hidx hlen
    unfold computeForwardReturn
    rw [hidx]
    simp [hlen]
  · intro features prices rebalanceDates hm s hs
    unfold prepareTrainingData at hs
    rw [List.mem_flatMap] at hs
    obtain ⟨d, _, hs⟩ := hs
    cases hrows : features.lookup d with
    | none => rw [hrows] at hs; simp at hs
    | some rows =>
      rw [hrows] at hs
      simp only at hs
      rw [List.mem_flatMap] at hs
      obtain ⟨tr, _, hs⟩ := hs
      cases hser : prices.lookup tr.1 with
      | none => rw [hser] at hs; simp at hs
      | some series =>
        rw [hser] at hs
        dsimp only at hs
        cases hfr : computeForwardReturn series hm d with
        | none => rw [hfr] at hs; simp at hs
        | some y =>
          rw [hfr] at hs
          dsimp only at hs
          simp only [List.mem_singleton] at hs
          subst hs
          refine ⟨⟨series, hser, hfr⟩, ?_⟩
          exact computeForwardReturn_mem_Icc series hm d y hfr

/-- Witness for C5: a two-point price series whose 3-month horizon endpoint
is out of range yields None; and a concrete produced sample has its target
within the winsorization interval. -/
theorem forward_return_dropped_or_clipped_witness :
    computeForwardReturn [((0:Int), (100:Rat)), (1, 101)] 3 0 = none ∧
    (-(1/2) ≤ (Sample.mk [1, 2] 0 5 3).y ∧ (Sample.mk [1, 2] 0 5 3).y ≤ 1/2) :=
  ⟨forward_return_dropped_or_clipped.1 [((0:Int), (100:Rat)), (1, 101)] 3 0 0
      rfl (by decide),
   (forward_return_dropped_or_clipped.2 [(5, [(3, [1, 2])])] [(3, [(5, 100)])]
      [5] 0 (Sample.mk [1, 2] 0 5 3)
      (by
        show Sample.mk [1, 2] 0 5 3 ∈
          prepareTrainingData [(5, [(3, [1, 2])])] [(3, [(5, 100)])] [5] 0
        have hfr : computeForwardReturn [((5:Int), (100:Rat))] 0 5 =
            some 0 := by
          unfold computeForwardReturn
          norm_num [List.findIdx?, clipRat]
        simp [prepareTrainingData, List.lookup, hfr])).2⟩

/-- PredictiveWalkForwardEngine._generate_ml_forecasts, guard structure
(walkforward_engine_predictive.py lines 253-341): fewer than 6 monthly
training dates aborts with None before any training; fewer than 30 prepared
training samples aborts with None; otherwise the model is cross-validated,
refit on the whole window and asked for per-ticker forecasts.  That external
sklearn pipeline — and the except branch at line 339 that converts a raised
exception into None — is the fitAndPredict parameter. -/
def generateMLForecasts (features : List (Int × List (Ticker × List Rat)))
    (prices : List (Ticker × List (Int × Rat)))
    (trainRebalanceDates : List Int) (horizonMonths : Nat)
    (fitAndPredict : List Sample → Option (List (Ticker × Rat))) :
    Option (List (Ticker × Rat)) :=
  if trainRebalanceDates.length < 6 then none
  else if (prepareTrainingData features prices trainRebalanceDates
      horizonMonths).length < 30 then none
  else fitAndPredict
    (prepareTrainingData features prices trainRebalanceDates horizonMonths)

/-- Expected-return selection in _optimize_with_forecasts (lines 376-393):
with a forecast dict, mu maps each valid ticker to forecast_dict.get(t, 0.0)
and is then shifted positive when its minimum is negative; with None
(forecast aborted or use_predictive false), mu is the historical mean return
of the risk-window prices — histMu models
expected_returns.mean_historical_return(price_df) on the risk window. -/
def chooseMu (validTickers : List Ticker) (histMu : Ticker → Rat)
    (forecastDict : Option (List (Ticker × Rat))) : Ticker → Rat :=
  match forecastDict with
  | some fd => shiftForecasts validTickers (fun t => (fd.lookup t).getD 0)
  | none => histMu

/-- PredictiveWalkForwardEngine._optimize_with_forecasts
(walkforward_engine_predictive.py lines 343-439).  validTickers is the
coverage-filtered universe (columns with at least int(0.7 * len) risk-window
observations — a float computation not modelled; the < 5 guard below is).
solve bundles the external covariance estimation on the risk window
(Ledoit-Wolf with sample-covariance fallback) and
EfficientFrontier.max_sharpe plus portfolio_performance; None models the
except branch at line 437.  The solved weights pass through the
clean-and-filter step finalWeights; the Bool component is the recorded
forecast_based flag. -/
def optimizeWithForecasts (validTickers : List Ticker)
    (histMu : Ticker → Rat)
    (solve : (Ticker → Rat) → Option (List (Ticker × Rat) × Rat × Rat × Rat))
    (forecastDict : Option (List (Ticker × Rat))) (rebalanceDate : Int) :
    Option (OptResult × Bool) :=
  if validTickers.length < 5 then none
  else
    match solve (chooseMu validTickers histMu forecastDict) with
    | none => none
    | some (w, er, vol, sh) =>
      some (⟨finalWeights w, er, vol, sh⟩, forecastDict.isSome)

/-- Claim C7: with fewer than 6 monthly training dates or fewer than 30
training samples, the ML forecast is aborted (None) and the optimization at
that rebalance proceeds exactly as the non-predictive fallback: the same
call with no forecast dict, whose expected returns are the historical means
on the risk window (with the risk-window covariance inside solve) — the
rebalance is not failed outright by the guard. -/
theorem insufficient_training_falls_back
    (features : List (Int × List (Ticker × List Rat)))
    (prices : List (Ticker × List (Int × Rat)))
    (trainDates : List Int) (hm : Nat)
    (fitAndPredict : List Sample → Option (List (Ticker × Rat)))
    (validTickers : List Ticker) (histMu : Ticker → Rat)
    (solve : (Ticker → Rat) → Option (List (Ticker × Rat) × Rat × Rat × Rat))
    (d : Int)
    (hguard : trainDates.length < 6 ∨
      (prepareTrainingData features prices trainDates hm).length < 30) :
    generateMLForecasts features prices trainDates hm fitAndPredict = none ∧
    optimizeWithForecasts validTickers histMu solve
        (generateMLForecasts features prices trainDates hm fitAndPredict) d =
      optimizeWithForecasts validTickers histMu solve none d ∧
    chooseMu validTickers histMu none = histMu := by
  have hnone : generateMLForecasts features prices trainDates hm
      fitAndPredict = none := by
    unfold generateMLForecasts
    rcases hguard with h6 | h30
    · rw [if_pos h6]
    · by_cases h6 : trainDates.length < 6
      · rw [if_pos h6]
      · rw [if_neg h6, if_pos h30]
  exact ⟨hnone, by rw [hnone], rfl⟩

/-- Witness for C7 at empty training inputs (0 monthly dates < 6) with a
concrete solver and universe. -/
theorem insufficient_training_falls_back_witness :
    generateMLForecasts [] [] [] 3 (fun _ => some [(0, 1)]) = none ∧
    optimizeWithForecasts [0, 1, 2, 3, 4] (fun _ => (1:Rat)/20)
        (fun _ => some ([(0, 1)], 1/10, 1/5, 1))
        (generateMLForecasts [] [] [] 3 (fun _ => some [(0, 1)])) 10 =
      optimizeWithForecasts [0, 1, 2, 3, 4] (fun _ => (1:Rat)/20)
        (fun _ => some ([(0, 1)], 1/10, 1/5, 1)) none 10 ∧
    chooseMu [0, 1, 2, 3, 4] (fun _ => (1:Rat)/20) none =
      (fun _ => (1:Rat)/20) :=
  insufficient_training_falls_back [] [] [] 3 (fun _ => some [(0, 1)])
    [0, 1, 2, 3, 4] (fun _ => (1:Rat)/20)
    (fun _ => some ([(0, 1)], 1/10, 1/5, 1)) 10 (Or.inl (by decide))

/-- Vocabulary for claim C9, taken from the specification (a recommendation
carries its recommendation_date and weights); the source code contains no
corresponding datatype, computation, or field. -/
structure ForwardRecommendation where
  recommendationDate : Int
  weights : List (Ticker × Rat)
  deriving DecidableEq, Repr

/-- Result of PredictiveWalkForwardEngine.run: the base-run outputs, the IC
history diagnostic, and an optional forward-looking recommendation slot
stated so that claim C9 can be expressed.  The code (lines 102-127) only
calls the base run and attaches diagnostics; nothing anywhere in the
repository constructs a recommendation, so the slot is always none. -/
structure PredictiveRunResult where
  equityCurve : List (Int × Rat)
  records : List RebalanceRecord
  icHistory : List (Int × Rat × Rat)
  recommendation : Option ForwardRecommendation
  deriving DecidableEq, Repr

/-- PredictiveWalkForwardEngine.run (walkforward_engine_predictive.py lines
102-127): results = super().run(), then predictive diagnostics (the IC
history) are attached.  No forward-looking recommendation is computed. -/
def predictiveRun (costBps : Rat)
    (optimize : Int → Option OptResult)
    (periodReturns : List (Ticker × Rat) → Int → Int → List (Int × Rat))
    (endDate : Int) (dates : List Int) (s0 : RunState)
    (icHistory : List (Int × Rat × Rat)) : PredictiveRunResult :=
  let s := runLoop costBps optimize periodReturns endDate dates s0
  ⟨s.equityCurve, s.records, icHistory, none⟩

/-- Claim C9 (amended): the predictive run emits NO forward-looking
recommendation — its result is exactly the base-run equity curve and
rebalance history plus the IC diagnostics, with an empty recommendation
slot. -/
theorem predictive_run_no_recommendation :
    ∀ (costBps : Rat) (optimize : Int → Option OptResult)
      (periodReturns : List (Ticker × Rat) → Int → Int → List (Int × Rat))
      (endDate : Int) (dates : List Int) (s0 : RunState)
      (icHistory : List (Int × Rat × Rat)),
      (predictiveRun costBps optimize periodReturns endDate dates s0
          icHistory).recommendation = none ∧
      (predictiveRun costBps optimize periodReturns endDate dates s0
          icHistory).equityCurve =
        (runLoop costBps optimize periodReturns endDate dates s0).equityCurve ∧
      (predictiveRun costBps optimize periodReturns endDate dates s0
          icHistory).records =
        (runLoop costBps optimize periodReturns endDate dates s0).records := by
  intro costBps optimize periodReturns endDate dates s0 icHistory
  exact ⟨rfl, rfl, rfl⟩

/-- Counterexample for C9 as stated: on a concrete run whose price panel
ends at date 20, the run result contains no recommendation at all — in
particular none whose recommendation_date equals the last panel date. -/
theorem forward_recommendation_counterexample :
    ¬ ∃ rec : ForwardRecommendation,
        (predictiveRun 15 (fun _ => none) (fun _ _ _ => []) 20 [10]
          (RunState.mk 100000 [] 0 [] []) []).recommendation = some rec ∧
        rec.recommendationDate = 20 := by
  rintro ⟨rec, hrec, _⟩
  exact Option.noConfusion hrec

/-- PredictiveAlphaModel.predict (predictive_models.py lines 304-329):
X = pd.DataFrame(X).fillna(0).values, then scaler.transform, then
model.predict.  A NaN feature value is modelled as none and fillna(0) as
getD 0; the fitted RobustScaler and sklearn regressor enter as the
scalerTransform and modelPredict parameters. -/
def predictRow (modelPredict : List Rat → Rat)
    (scalerTransform : List Rat → List Rat) (row : List (Option Rat)) : Rat :=
  modelPredict (scalerTransform (row.map (fun v => v.getD 0)))

/-- Claim C10: at prediction time missing feature values are replaced by 0
(not by the per-batch median used in prepare_training_data at training
time — that imputation, predictive_models.py line 166, touches only the
training matrix): the forecast of any row equals the forecast of the same
row with every missing value replaced by the literal 0. -/
theorem predict_fills_nan_with_zero :
    ∀ (modelPredict : List Rat → Rat) (scalerTransform : List Rat → List Rat)
      (row : List (Option Rat)),
      predictRow modelPredict scalerTransform row =
        predictRow modelPredict scalerTransform
          (row.map (fun v => some (v.getD 0))) := by
  intro m sc row
  unfold predictRow
  rw [List.map_map]
  rfl
